import Mathlib

/-!
Verification of the `hmon` Linux resource monitor against its specification.

The C++ sources are shallowly embedded: `double` values are modelled as `ℚ`
(all arithmetic the claims exercise is exact), `unsigned long long` tick
counters as `ℕ` reduced modulo `2^64` where the code can wrap, optional
values as `Option`, and `std::vector` as `List`.  File-system and
subprocess reads (the probe inputs) become explicit input data.
-/

namespace Hmon

/-! ## Numeric helpers (`src/src/metrics/linux_utils.hpp`, UI helpers) -/

/-- `clampPercent` from the UI translation unit: `max(0.0, min(100.0, v))`. -/
def clampPercent (v : ℚ) : ℚ := max 0 (min 100 v)

/-- `linux_utils::normalizeTemperatureC`: readings larger than 1000 in
magnitude are milli-degrees and divided by 1000; results outside [0,150] °C
are rejected. -/
def normalizeTemperatureC (raw : ℤ) : Option ℚ :=
  let celsius : ℚ := if |(raw : ℚ)| > 1000 then (raw : ℚ) / 1000 else (raw : ℚ)
  if celsius < 0 ∨ celsius > 150 then none else some celsius

/-- `linux_utils::normalizePercent`: integer percents outside [0,100] rejected. -/
def normalizePercent (raw : ℤ) : Option ℚ :=
  if raw < 0 ∨ raw > 100 then none else some (raw : ℚ)

/-- `linux_utils::microWattsToWatts`. -/
def microWattsToWatts (microWatts : ℤ) : Option ℚ :=
  if microWatts ≤ 0 then none
  else
    let watts : ℚ := (microWatts : ℚ) / 1000000
    if watts ≤ 0 ∨ watts > 2000 then none else some watts

/-! ## String helpers (`linux_utils::toLower`, `startsWith`, `find`, `<`) -/

/-- ASCII lower-casing of one character (`std::tolower` on the ASCII range). -/
def charToLower (c : Char) : Char :=
  if 'A' ≤ c ∧ c ≤ 'Z' then Char.ofNat (c.toNat + 32) else c

/-- `linux_utils::toLower`. -/
def strToLower (s : String) : String := String.mk (s.data.map charToLower)

/-- `linux_utils::startsWith` (`text.rfind(p, 0) == 0`). -/
def strStarts (text pre : String) : Bool := pre.data.isPrefixOf text.data

/-- `std::string::find(pat) != npos`: substring containment. -/
def containsSub (s pat : String) : Bool :=
  s.data.tails.any (fun t => pat.data.isPrefixOf t)

/-- `std::string::find(c) != npos` for one character. -/
def containsChar (s : String) (c : Char) : Bool := s.data.contains c

/-- `std::string::operator<`: lexicographic comparison, element by element. -/
def charListLt : List Char → List Char → Bool
  | [], [] => false
  | [], _ :: _ => true
  | _ :: _, [] => false
  | a :: as, b :: bs => if a < b then true else if b < a then false else charListLt as bs

/-- Name comparison used by the GPU sort (`lhs.name < rhs.name`). -/
def strLt (a b : String) : Bool := charListLt a.data b.data

/-! ## Data model (`src/unnamed/part_001`, `metrics/types.hpp`) -/

/-- `GpuMetrics` from `metrics/types.hpp`; `double` fields become `ℚ`. -/
structure GpuMetrics where
  name : String := ""
  source : String := ""
  in_use : Option Bool := none
  temperature_c : Option ℚ := none
  core_clock_mhz : Option ℚ := none
  utilization_percent : Option ℚ := none
  power_w : Option ℚ := none
  memory_used_mib : Option ℚ := none
  memory_total_mib : Option ℚ := none
  memory_utilization_percent : Option ℚ := none
  deriving DecidableEq, Repr

instance : Inhabited GpuMetrics := ⟨{}⟩

/-! ## Telemetry score and the GPU ordering (`gpu.cpp` lines 109-130, 281-288) -/

/-- `telemetryScore` from `gpu.cpp`: weighted count of populated fields. -/
def telemetryScore (g : GpuMetrics) : ℕ :=
  (if g.temperature_c.isSome then 2 else 0) +
  (if g.core_clock_mhz.isSome then 2 else 0) +
  (if g.utilization_percent.isSome then 3 else 0) +
  (if g.power_w.isSome then 2 else 0) +
  (if g.memory_used_mib.isSome || g.memory_total_mib.isSome then 2 else 0) +
  (if g.memory_utilization_percent.isSome then 1 else 0)

/-- The strict comparator handed to `std::stable_sort` in both GPU branches:
higher telemetry score first, ties broken by ascending name. -/
def gpuLt (lhs rhs : GpuMetrics) : Bool :=
  if telemetryScore lhs ≠ telemetryScore rhs then
    decide (telemetryScore rhs < telemetryScore lhs)
  else
    strLt lhs.name rhs.name

/-- Stable insertion sort modelling `std::stable_sort` with a strict
comparator: an element is placed after every earlier element that is not
strictly greater. -/
def insertSorted (lt : α → α → Bool) (x : α) : List α → List α
  | [] => [x]
  | y :: ys => if lt y x then y :: insertSorted lt x ys else x :: y :: ys

/-- Stable sort (`std::stable_sort` model). -/
def stableSort (lt : α → α → Bool) : List α → List α
  | [] => []
  | x :: xs => insertSorted lt x (stableSort lt xs)

/-! ## GPU fusion (`gpu.cpp` `collectGpus`, lines 294-394) -/

/-- `gpuLooksNvidia`: name or source mentions "nvidia" (case-insensitive). -/
def gpuLooksNvidia (g : GpuMetrics) : Bool :=
  containsSub (strToLower g.name) "nvidia" || containsSub (strToLower g.source) "nvidia"

/-- The field-supplement step of the merge loop (lines 337-361): each field
the nvidia-smi record lacks is taken from the sysfs candidate. -/
def mergeGpuFields (base extra : GpuMetrics) : GpuMetrics :=
  { base with
    temperature_c := base.temperature_c.or extra.temperature_c
    core_clock_mhz := base.core_clock_mhz.or extra.core_clock_mhz
    utilization_percent := base.utilization_percent.or extra.utilization_percent
    power_w := base.power_w.or extra.power_w
    memory_used_mib := base.memory_used_mib.or extra.memory_used_mib
    memory_total_mib := base.memory_total_mib.or extra.memory_total_mib
    memory_utilization_percent :=
      base.memory_utilization_percent.or extra.memory_utilization_percent
    in_use := base.in_use.or extra.in_use }

/-- One of the candidate-consuming `while` loops: pop queue entries until an
unused index is found; entries popped past stay consumed. -/
def pickUnused (used : ℕ → Bool) : List ℕ → Option ℕ × List ℕ
  | [] => (none, [])
  | i :: rest => if used i then pickUnused used rest else (some i, rest)

/-- Indices of sysfs records that look like NVIDIA cards, in encounter
order (`nvidia_sysfs_indices`). -/
def nvidiaSysfsIdxs (sysfs : List GpuMetrics) : List ℕ :=
  (List.range sysfs.length).filter (fun i => gpuLooksNvidia (sysfs.getD i default))

/-- One base's candidate choice (the two `while` loops of lines 313-331):
try the nvidia-candidate queue first, else the encounter-order queue.
Returns the chosen index and the two remaining queues. -/
def pickSupplement (used : ℕ → Bool) (nvQueue anyQueue : List ℕ) :
    Option ℕ × List ℕ × List ℕ :=
  match pickUnused used nvQueue with
  | (some i, nvRest) => (some i, nvRest, anyQueue)
  | (none, nvRest) =>
    match pickUnused used anyQueue with
    | (choice, anyRest) => (choice, nvRest, anyRest)

/-- The merge loop of `collectGpus` (lines 310-362).  State: remaining
nvidia-smi bases, the `sysfs_used` flags, the remaining nvidia-candidate
index queue and the remaining encounter-order index queue.  Returns the
supplemented bases, the final used flags, and the list of consumed sysfs
indices in consumption order. -/
def mergeGpuList (sysfs : List GpuMetrics) :
    List GpuMetrics → (ℕ → Bool) → List ℕ → List ℕ →
    List GpuMetrics × (ℕ → Bool) × List ℕ
  | [], used, _, _ => ([], used, [])
  | base :: rest, used, nvQueue, anyQueue =>
    match pickSupplement used nvQueue anyQueue with
    | (none, nvRest, anyRest) =>
      let tail := mergeGpuList sysfs rest used nvRest anyRest
      (base :: tail.1, tail.2.1, tail.2.2)
    | (some i, nvRest, anyRest) =>
      let used' : ℕ → Bool := fun j => if j = i then true else used j
      let base' := mergeGpuFields base (sysfs.getD i default)
      let tail := mergeGpuList sysfs rest used' nvRest anyRest
      (base' :: tail.1, tail.2.1, i :: tail.2.2)

/-- The post-merge fix-up loop (lines 364-373): sensors-text power fallback,
then derive memory utilization from used/total when absent. -/
def applySensorsPowerFallback (fb : Option ℚ) (g : GpuMetrics) : GpuMetrics :=
  let g1 := { g with power_w := g.power_w.or fb }
  match g1.memory_utilization_percent, g1.memory_used_mib, g1.memory_total_mib with
  | none, some used, some total =>
      if total > 0 then { g1 with memory_utilization_percent := some (100 * used / total) }
      else g1
  | _, _, _ => g1

/-- The fusion step of `collectGpus` given the two probe outputs: when the
nvidia-smi probe produced records, supplement them from sysfs candidates,
append the unconsumed sysfs records, and stable-sort; otherwise return the
sysfs list unchanged. -/
def fuseGpus (nvidia sysfs : List GpuMetrics) (fb : Option ℚ) : List GpuMetrics :=
  if nvidia.isEmpty then sysfs
  else
    let res := mergeGpuList sysfs nvidia (fun _ => false)
        (nvidiaSysfsIdxs sysfs) (List.range sysfs.length)
    let merged := res.1.map (applySensorsPowerFallback fb)
    let leftovers := ((List.range sysfs.length).filter (fun i => !res.2.1 i)).map
        (fun i => sysfs.getD i default)
    stableSort gpuLt (merged ++ leftovers)

/-- The consumed sysfs indices of a fusion run. -/
def fuseConsumed (nvidia sysfs : List GpuMetrics) : List ℕ :=
  (mergeGpuList sysfs nvidia (fun _ => false)
      (nvidiaSysfsIdxs sysfs) (List.range sysfs.length)).2.2

/-! ## The sysfs/DRM probe (`gpu.cpp` lines 17-291).  File-system reads become
explicit input data: a `CardEnv` carries the values the probe reads for one
`/sys/class/drm/cardN` entry. -/

/-- `linux_utils::trim`. -/
def isSpaceChar (c : Char) : Bool := c = ' ' || c = '\t' || c = '\r' || c = '\n'

/-- `linux_utils::trim`: strip leading and trailing whitespace. -/
def trimStr (s : String) : String :=
  String.mk (((s.data.dropWhile isSpaceChar).reverse.dropWhile isSpaceChar).reverse)

/-- One hwmon sensor directory under `device/hwmon`: its sorted file listing,
each file with its `readLongLong` result. -/
structure SensorEnv where
  isDir : Bool := true
  files : List (String × Option ℤ) := []
  deriving Repr

/-- Everything the sysfs probe reads for one DRM entry. -/
structure CardEnv where
  cardName : String
  deviceExists : Bool := true
  classCode : Option String := none
  vendorId : Option String := none
  /-- filename of the `driver` symlink target when the link exists and is
  readable, `none` otherwise. -/
  driverLinkName : Option String := none
  ueventLines : List String := []
  /-- the `/sys/class/drm` directory listing seen by `detectCardInUse`:
  entry name and first line of its `status` file (when readable). -/
  drmSiblings : List (String × Option String) := []
  bootVga : Option ℤ := none
  hwmonSensors : List SensorEnv := []
  gtCurFreqMhz : Option ℤ := none
  /-- result of the `pp_dpm_sclk` regex scan (`readActiveAmdClockMhz`);
  the text parse itself is an external primitive per the spec. -/
  ppDpmSclkMhz : Option ℚ := none
  gpuBusyRaw : Option ℤ := none
  memInfoVramUsed : Option ℤ := none
  memInfoVisVramUsed : Option ℤ := none
  memInfoVramTotal : Option ℤ := none
  memInfoVisVramTotal : Option ℤ := none
  deriving Repr

/-- `vendorNameFromId`. -/
def vendorNameFromId : Option String → String
  | none => "Unknown"
  | some vid =>
    let lower := strToLower vid
    if lower = "0x10de" then "NVIDIA"
    else if lower = "0x1002" then "AMD"
    else if lower = "0x8086" then "Intel"
    else "Vendor " ++ vid

/-- The uevent fallback of `readDriverName`: first `DRIVER=` line wins;
an empty value there stops the scan. -/
def driverFromUevent (lines : List String) : Option String :=
  match lines.find? (fun l => strStarts l "DRIVER=") with
  | some l => let d := trimStr (l.drop 7); if d = "" then none else some d
  | none => none

/-- `readDriverName`: driver symlink target filename, else uevent `DRIVER=`. -/
def readDriverName (env : CardEnv) : Option String :=
  match env.driverLinkName with
  | some n => if n = "" then driverFromUevent env.ueventLines else some n
  | none => driverFromUevent env.ueventLines

/-- `isDisplayClassDevice`: missing class file counts as a display device;
otherwise the PCI class must start with `0x03`. -/
def isDisplayClassDevice (classCode : Option String) : Bool :=
  match classCode with
  | none => true
  | some c => strStarts (strToLower c) "0x03"

/-- `detectCardInUse`: scan the card's connectors for a "connected" status,
else report false when any connector status exists, else fall back to
`boot_vga`, else unknown. -/
def detectCardInUse (env : CardEnv) : Option Bool :=
  let cardPre := env.cardName ++ "-"
  let statuses := env.drmSiblings.filterMap (fun e =>
    if strStarts e.1 cardPre && !containsSub e.1 "render" then e.2 else none)
  if statuses.any (fun s => strToLower s = "connected") then some true
  else if !statuses.isEmpty then some false
  else
    match env.bootVga with
    | some v => some (v = 1)
    | none => none

/-- The fixed candidate file names of `linux_utils::readHwmonPowerWatts`. -/
def hwmonPowerCandidates : List String :=
  ["power1_average", "power1_input", "power2_average", "power2_input",
   "power_average", "power_input"]

/-- `linux_utils::readLongLong` on a file of a sensor directory. -/
def readFileLL (files : List (String × Option ℤ)) (name : String) : Option ℤ :=
  (files.find? (fun f => f.1 = name)).bind (fun f => f.2)

/-- `linux_utils::readHwmonPowerWatts`: first candidate file that both
parses and converts to a plausible wattage. -/
def readHwmonPowerWatts (s : SensorEnv) : Option ℚ :=
  hwmonPowerCandidates.foldl
    (fun acc name => acc.or ((readFileLL s.files name).bind microWattsToWatts)) none

/-- The first `temp*_input` file of a sensor directory that parses, as °C
(divided by 1000 unconditionally, per the GPU probe). -/
def sensorFirstTempC (s : SensorEnv) : Option ℚ :=
  (s.files.find? (fun f => strStarts f.1 "temp" && strEnds f.1 "_input" && f.2.isSome)).bind
    (fun f => f.2.map (fun v => (v : ℚ) / 1000))
where
  /-- `linux_utils::endsWith`. -/
  strEnds (text suffix : String) : Bool := suffix.data.isSuffixOf text.data

/-- The hwmon scan of the sysfs probe (lines 227-250): first power reading
and first temperature reading across the sensor directories. -/
def sysfsHwmonScan (sensors : List SensorEnv) : Option ℚ × Option ℚ :=
  sensors.foldl
    (fun acc sensor =>
      if sensor.isDir then
        (acc.1.or (readHwmonPowerWatts sensor), acc.2.or (sensorFirstTempC sensor))
      else acc)
    (none, none)

/-- The per-card record assembly of `collectGpusFromSysfs` (lines 208-278). -/
def buildSysfsGpu (fb : Option ℚ) (env : CardEnv) : GpuMetrics :=
  let driver := readDriverName env
  let hw := sysfsHwmonScan env.hwmonSensors
  let clock : Option ℚ :=
    match env.gtCurFreqMhz with
    | some mhz => if mhz > 0 then some (mhz : ℚ) else env.ppDpmSclkMhz
    | none => env.ppDpmSclkMhz
  let util := env.gpuBusyRaw.bind normalizePercent
  let vramUsed := env.memInfoVramUsed.or env.memInfoVisVramUsed
  let vramTotal := env.memInfoVramTotal.or env.memInfoVisVramTotal
  let memFields : Option ℚ × Option ℚ × Option ℚ :=
    match vramUsed, vramTotal with
    | some u, some t =>
      if t > 0 then
        let usedMib := (u : ℚ) / (1024 * 1024)
        let totalMib := (t : ℚ) / (1024 * 1024)
        (some usedMib, some totalMib,
          if totalMib > 0 then some (100 * usedMib / totalMib) else none)
      else (none, none, none)
    | _, _ => (none, none, none)
  { name := env.cardName ++ " (" ++ vendorNameFromId env.vendorId ++ ")"
    source := match driver with | some d => "sysfs/" ++ d | none => "sysfs"
    in_use := detectCardInUse env
    temperature_c := hw.2
    core_clock_mhz := clock
    utilization_percent := util
    power_w := hw.1.or fb
    memory_used_mib := memFields.1
    memory_total_mib := memFields.2.1
    memory_utilization_percent := memFields.2.2 }

/-- The card filter of the sysfs probe: `cardN` entries (no connector
suffix) whose `device` directory exists and is a display-class device. -/
def keepCard (env : CardEnv) : Bool :=
  strStarts env.cardName "card" && !containsChar env.cardName '-' &&
  env.deviceExists && isDisplayClassDevice env.classCode

/-- `collectGpusFromSysfs` (lines 200-291): build one record per accepted
card, then stable-sort by telemetry score and name.  Every accepted card is
kept, telemetry or not. -/
def collectGpusFromSysfs (cards : List CardEnv) (fb : Option ℚ) : List GpuMetrics :=
  stableSort gpuLt ((cards.filter keepCard).map (buildSysfsGpu fb))

/-- `collectGpus` (lines 294-394): fuse the nvidia-smi probe output with the
sysfs probe output. -/
def collectGpus (nvidia : List GpuMetrics) (cards : List CardEnv) (fb : Option ℚ) :
    List GpuMetrics :=
  fuseGpus nvidia (collectGpusFromSysfs cards fb) fb

/-! ## Display-GPU selection and usage computations (UI translation unit) -/

/-- `gpuHasTelemetry`: any of the seven optional telemetry fields present. -/
def gpuHasTelemetry (g : GpuMetrics) : Bool :=
  g.temperature_c.isSome || g.core_clock_mhz.isSome || g.utilization_percent.isSome ||
  g.power_w.isSome || g.memory_used_mib.isSome || g.memory_total_mib.isSome ||
  g.memory_utilization_percent.isSome

/-- `gpuLooksIntel`. -/
def gpuLooksIntel (g : GpuMetrics) : Bool :=
  containsSub (strToLower g.name) "intel" || containsSub (strToLower g.source) "intel" ||
  containsSub (strToLower g.source) "i915" || containsSub (strToLower g.source) "xe"

/-- `gpuLooksRadeon`. -/
def gpuLooksRadeon (g : GpuMetrics) : Bool :=
  containsSub (strToLower g.source) "radeon" || containsSub (strToLower g.name) "radeon"

/-- The three first-occurrence indices computed by the scan loop of
`pickDisplayGpuIndex`; `gpus.size()` acts as the "not found" sentinel. -/
structure GpuScan where
  first_with_telemetry : ℕ
  intel_with_telemetry : ℕ
  first_intel : ℕ
  deriving Repr

/-- The scan loop of `pickDisplayGpuIndex` (lines 759-773). -/
def scanGpuIndices (gpus : List GpuMetrics) : GpuScan :=
  let n := gpus.length
  (List.range n).foldl
    (fun s i =>
      let g := gpus.getD i default
      let isIntel := gpuLooksIntel g
      let s := if isIntel && s.first_intel = n then { s with first_intel := i } else s
      if gpuHasTelemetry g then
        let s :=
          if s.first_with_telemetry = n then { s with first_with_telemetry := i } else s
        if isIntel && s.intel_with_telemetry = n then { s with intel_with_telemetry := i }
        else s
      else s)
    ⟨n, n, n⟩

/-- `pickDisplayGpuIndex` (lines 750-792). -/
def pickDisplayGpuIndex (gpus : List GpuMetrics) : ℕ :=
  if gpus.isEmpty then 0
  else
    let n := gpus.length
    let s := scanGpuIndices gpus
    let front := gpus.getD 0 default
    if gpuLooksRadeon front && !gpuHasTelemetry front then
      if s.intel_with_telemetry ≠ n then s.intel_with_telemetry
      else if s.first_with_telemetry ≠ n then s.first_with_telemetry
      else if s.first_intel ≠ n then s.first_intel
      else if s.first_with_telemetry ≠ n then s.first_with_telemetry
      else 0
    else if s.first_with_telemetry ≠ n then s.first_with_telemetry
    else 0

/-- `computeGpuUsagePercent` (lines 1066-1071): unguarded access at the
display index after the emptiness check. -/
def computeGpuUsagePercent (gpus : List GpuMetrics) : Option ℚ :=
  if gpus.isEmpty then none
  else (gpus.getD (pickDisplayGpuIndex gpus) default).utilization_percent

/-- `computeGpuVramUsagePercent` (lines 1073-1085). -/
def computeGpuVramUsagePercent (gpus : List GpuMetrics) : Option ℚ :=
  if gpus.isEmpty then none
  else
    let gpu := gpus.getD (pickDisplayGpuIndex gpus) default
    match gpu.memory_utilization_percent with
    | some v => some v
    | none =>
      match gpu.memory_used_mib, gpu.memory_total_mib with
      | some used, some total => if total > 0 then some (100 * used / total) else none
      | _, _ => none

/-! ## Bounded history store (`appendHistoryValue`, lines 1097-1107) -/

/-- `appendHistoryValue`: carry the last stored value forward (0 when
empty) for a missing sample, clamp, append, and evict from the front down
to `maxPoints` entries. -/
def appendHistoryValue (series : List ℚ) (value : Option ℚ) (maxPoints : ℕ) : List ℚ :=
  let nextValue := clampPercent (value.getD (if series.isEmpty then 0 else series.getLastD 0))
  let s := series ++ [nextValue]
  if s.length > maxPoints then s.drop (s.length - maxPoints) else s

/-- The same append without the eviction step; used to state that eviction
removes exactly the oldest entries. -/
def appendHistoryNoEvict (series : List ℚ) (value : Option ℚ) : List ℚ :=
  series ++ [clampPercent (value.getD (if series.isEmpty then 0 else series.getLastD 0))]

/-- A run of the bounded store from empty over a sequence of samples. -/
def historyRun (vals : List (Option ℚ)) (maxPoints : ℕ) : List ℚ :=
  vals.foldl (fun s v => appendHistoryValue s v maxPoints) []

/-- The same run without eviction. -/
def historyRunNoEvict (vals : List (Option ℚ)) : List ℚ :=
  vals.foldl appendHistoryNoEvict []

/-! ## CPU usage delta sampler (`cpu.cpp`, `collectCpuUsagePercent`) -/

/-- The sampler's process-lifetime state. -/
structure CpuUsageState where
  prev_idle : ℕ
  prev_total : ℕ
  initialized : Bool
  deriving DecidableEq, Repr

/-- `unsigned long long` wrap-around. -/
def uint64Mod (n : ℕ) : ℕ := n % 2 ^ 64

/-- The core of `collectCpuUsagePercent` once the idle and total tick
counts are formed: baseline on first call or counter regression, guard
against a zero total delta, else the clamped usage ratio. -/
def cpuSampleCore (st : CpuUsageState) (idle_ticks total_ticks : ℕ) :
    CpuUsageState × Option ℚ :=
  if st.initialized = false ∨ total_ticks < st.prev_total ∨ idle_ticks < st.prev_idle then
    (⟨idle_ticks, total_ticks, true⟩, none)
  else
    let total_delta := total_ticks - st.prev_total
    let idle_delta := idle_ticks - st.prev_idle
    let st' : CpuUsageState := ⟨idle_ticks, total_ticks, true⟩
    if total_delta = 0 then (st', none)
    else (st', some (clampPercent (100 * (1 - (idle_delta : ℚ) / (total_delta : ℚ)))))

/-- `collectCpuUsagePercent` given the eight parsed `/proc/stat` counters:
idle ticks are `idle + iowait`, total ticks the sum of all eight, both with
`unsigned long long` wrap-around. -/
def collectCpuUsagePercent (st : CpuUsageState)
    (user nice system idle iowait irq softirq steal : ℕ) : CpuUsageState × Option ℚ :=
  cpuSampleCore st (uint64Mod (idle + iowait))
    (uint64Mod (user + nice + system + idle + iowait + irq + softirq + steal))

/-- Polling loop composition for the usage history: each poll feeds the
sampler and appends its (possibly missing) result to the history series,
exactly as `main`'s `collectSnapshot` + `updateHistory` do. -/
def cpuHistoryRun (polls : List (ℕ × ℕ)) (maxPoints : ℕ) : CpuUsageState × List ℚ :=
  polls.foldl
    (fun acc p =>
      let r := cpuSampleCore acc.1 p.1 p.2
      (r.1, appendHistoryValue acc.2 r.2 maxPoints))
    (⟨0, 0, false⟩, [])

/-! ## Braille canvas rasterizer (lines 962-1369) -/

/-- `BrailleCanvas`: a grid of direction masks. -/
structure BrailleCanvas where
  width : ℤ
  height : ℤ
  cells : List ℕ
  deriving Repr

def kDirUp : ℕ := 0x01
def kDirDown : ℕ := 0x02
def kDirLeft : ℕ := 0x04
def kDirRight : ℕ := 0x08
def kDirPoint : ℕ := 0x10

/-- `isInsideCanvas`. -/
def isInsideCanvas (c : BrailleCanvas) (x y : ℤ) : Bool :=
  decide (0 ≤ x) && decide (0 ≤ y) && decide (x < c.width) && decide (y < c.height)

/-- The row-major cell index `y * width + x`. -/
def cellIdx (c : BrailleCanvas) (x y : ℤ) : ℕ := (y * c.width + x).toNat

/-- Read one cell's mask (0 outside the backing store). -/
def getCanvasMask (c : BrailleCanvas) (x y : ℤ) : ℕ := c.cells.getD (cellIdx c x y) 0

/-- `createBrailleCanvas`. -/
def createBrailleCanvas (width height : ℤ) : BrailleCanvas :=
  let w := max 0 width
  let h := max 0 height
  ⟨w, h, List.replicate (w * h).toNat 0⟩

/-- `addCanvasMask`: OR a mask into one in-bounds cell. -/
def addCanvasMask (c : BrailleCanvas) (x y : ℤ) (mask : ℕ) : BrailleCanvas :=
  if isInsideCanvas c x y then
    { c with cells := c.cells.set (cellIdx c x y) (c.cells.getD (cellIdx c x y) 0 ||| mask) }
  else c

/-- `connectCanvasCells`: mark the facing direction bits of two adjacent
cells; non-adjacent pairs are ignored. -/
def connectCanvasCells (c : BrailleCanvas) (x0 y0 x1 y1 : ℤ) : BrailleCanvas :=
  if !(isInsideCanvas c x0 y0 && isInsideCanvas c x1 y1) then c
  else if x1 = x0 + 1 ∧ y1 = y0 then
    addCanvasMask (addCanvasMask c x0 y0 kDirRight) x1 y1 kDirLeft
  else if x1 = x0 - 1 ∧ y1 = y0 then
    addCanvasMask (addCanvasMask c x0 y0 kDirLeft) x1 y1 kDirRight
  else if x1 = x0 ∧ y1 = y0 + 1 then
    addCanvasMask (addCanvasMask c x0 y0 kDirDown) x1 y1 kDirUp
  else if x1 = x0 ∧ y1 = y0 - 1 then
    addCanvasMask (addCanvasMask c x0 y0 kDirUp) x1 y1 kDirDown
  else c

/-- The Bresenham stepping loop of `rasterizeBrailleLine`.  The C++
`while (true)` terminates after at most `dx + dy` steps; the fuel argument
carries that bound. -/
def bresenhamLoop (x1 y1 sx sy dx dy : ℤ) :
    ℕ → BrailleCanvas → ℤ → ℤ → ℤ → BrailleCanvas
  | 0, c, _, _, _ => c
  | fuel + 1, c, x, y, err =>
    if x = x1 ∧ y = y1 then c
    else
      let e2 := err * 2
      let movedX : Bool := decide (e2 > -dy)
      let xn := if movedX then x + sx else x
      let err1 := if movedX then err - dy else err
      let movedY : Bool := decide (e2 < dx)
      let yn := if movedY then y + sy else y
      let err2 := if movedY then err1 + dx else err1
      let c1 :=
        if movedX && movedY then
          -- diagonal step rendered as an elbow through (xn, y)
          connectCanvasCells (connectCanvasCells c x y xn y) xn y xn yn
        else
          connectCanvasCells c x y xn yn
      let c2 := addCanvasMask c1 xn yn kDirPoint
      bresenhamLoop x1 y1 sx sy dx dy fuel c2 xn yn err2

/-- `rasterizeBrailleLine`. -/
def rasterizeBrailleLine (c : BrailleCanvas) (x0 y0 x1 y1 : ℤ) : BrailleCanvas :=
  if !(isInsideCanvas c x0 y0 && isInsideCanvas c x1 y1) then c
  else
    let c0 := addCanvasMask c x0 y0 kDirPoint
    let dx := |x1 - x0|
    let dy := |y1 - y0|
    let sx : ℤ := if x0 < x1 then 1 else -1
    let sy : ℤ := if y0 < y1 then 1 else -1
    bresenhamLoop x1 y1 sx sy dx dy (dx + dy).toNat c0 x0 y0 (dx - dy)

/-- `glyphForMask` inside `drawBrailleLayer`, as a Unicode codepoint. -/
def glyphForMask (mask : ℕ) : ℕ :=
  let dirs := mask &&& (kDirUp ||| kDirDown ||| kDirLeft ||| kDirRight)
  if dirs = 0 then (if mask &&& kDirPoint ≠ 0 then 0xb7 else 0x20)
  else if dirs = (kDirLeft ||| kDirRight) then 0x2500
  else if dirs = (kDirUp ||| kDirDown) then 0x2502
  else if dirs = (kDirDown ||| kDirRight) then 0x250c
  else if dirs = (kDirDown ||| kDirLeft) then 0x2510
  else if dirs = (kDirUp ||| kDirRight) then 0x2514
  else if dirs = (kDirUp ||| kDirLeft) then 0x2518
  else if dirs = (kDirUp ||| kDirDown ||| kDirRight) then 0x251c
  else if dirs = (kDirUp ||| kDirDown ||| kDirLeft) then 0x2524
  else if dirs = (kDirLeft ||| kDirRight ||| kDirDown) then 0x252c
  else if dirs = (kDirLeft ||| kDirRight ||| kDirUp) then 0x2534
  else if dirs = (kDirUp ||| kDirDown ||| kDirLeft ||| kDirRight) then 0x253c
  else if dirs &&& (kDirLeft ||| kDirRight) ≠ 0 then 0x2500
  else 0x2502

/-! ## Basic lemmas -/

lemma clampPercent_nonneg (v : ℚ) : 0 ≤ clampPercent v := le_max_left 0 _

lemma clampPercent_le_hundred (v : ℚ) : clampPercent v ≤ 100 :=
  max_le (by norm_num) (min_le_left _ _)

lemma clampPercent_eq_self {v : ℚ} (h0 : 0 ≤ v) (h1 : v ≤ 100) : clampPercent v = v := by
  unfold clampPercent
  rw [min_eq_right h1, max_eq_right h0]

/-! ## Claim C6: temperature normalization -/

/-- **C6.** For every integer raw temperature reading `v`: if `|v| > 1000`
the normalized value is `v / 1000`, otherwise it is `v` itself; the result
is returned exactly when it lies in [0,150] °C and is `none` otherwise —
out-of-range values are rejected, never clamped. -/
theorem normalizeTemperatureC_spec : ∀ raw : ℤ,
    (1000 < |raw| →
      normalizeTemperatureC raw =
        if 0 ≤ (raw : ℚ) / 1000 ∧ (raw : ℚ) / 1000 ≤ 150 then some ((raw : ℚ) / 1000)
        else none) ∧
    (|raw| ≤ 1000 →
      normalizeTemperatureC raw =
        if 0 ≤ (raw : ℚ) ∧ (raw : ℚ) ≤ 150 then some (raw : ℚ) else none) := by
  intro raw
  have habs : |(raw : ℚ)| = ((|raw| : ℤ) : ℚ) := by push_cast; rfl
  have key : ∀ c : ℚ, (if c < 0 ∨ c > 150 then (none : Option ℚ) else some c) =
      (if 0 ≤ c ∧ c ≤ 150 then some c else none) := by
    intro c
    by_cases h1 : c < 0 ∨ c > 150
    · rw [if_pos h1, if_neg]
      intro h2
      rcases h1 with h | h
      · linarith [h2.1]
      · linarith [h2.2]
    · push_neg at h1
      rw [if_neg, if_pos ⟨h1.1, h1.2⟩]
      intro h2
      rcases h2 with h | h
      · linarith [h1.1]
      · linarith [h1.2]
  constructor
  · intro h
    have h' : |(raw : ℚ)| > 1000 := by rw [habs]; exact_mod_cast h
    unfold normalizeTemperatureC
    rw [if_pos h']
    exact key _
  · intro h
    have h' : ¬ |(raw : ℚ)| > 1000 := by rw [habs]; push_neg; exact_mod_cast h
    unfold normalizeTemperatureC
    rw [if_neg h']
    exact key _

/-- Witness for C6: a 45 °C milli-degree reading (45000) is divided by
1000 and accepted; evaluating the embedded function confirms `some 45`. -/
theorem normalizeTemperatureC_spec_witness :
    (normalizeTemperatureC 45000 =
      if 0 ≤ (45000 : ℚ) / 1000 ∧ (45000 : ℚ) / 1000 ≤ 150 then some ((45000 : ℚ) / 1000)
      else none) ∧
    normalizeTemperatureC 45000 = some 45 :=
  ⟨(normalizeTemperatureC_spec 45000).1 (by norm_num),
   by norm_num [normalizeTemperatureC]⟩

/-! ## Claim C1: the CPU usage delta sampler -/

/-- **C1.** For every call of the CPU usage delta sampler: on the first
call, or whenever the fresh idle-tick or total-tick count is smaller than
the stored previous value, the call stores the new counters as the baseline
and returns no value; when the total-tick delta is zero it returns no
value; otherwise it returns `100 * (1 - Δidle/Δtotal)` clamped to [0,100].
Idle ticks are `idle + iowait` and total ticks the sum of the eight
counters.  Any returned value lies in [0,100] (never negative), the
(100,1000) → (150,1100) example yields exactly 50, and a subsequent read
with a smaller total returns no value. -/
theorem collectCpuUsagePercent_spec :
    (∀ (st : CpuUsageState) (it tt : ℕ),
      st.initialized = false ∨ tt < st.prev_total ∨ it < st.prev_idle →
      cpuSampleCore st it tt = (⟨it, tt, true⟩, none)) ∧
    (∀ (st : CpuUsageState) (it tt : ℕ),
      st.initialized = true → st.prev_total ≤ tt → st.prev_idle ≤ it →
      tt = st.prev_total → cpuSampleCore st it tt = (⟨it, tt, true⟩, none)) ∧
    (∀ (st : CpuUsageState) (it tt : ℕ),
      st.initialized = true → st.prev_total ≤ tt → st.prev_idle ≤ it →
      st.prev_total < tt →
      cpuSampleCore st it tt = (⟨it, tt, true⟩,
        some (clampPercent
          (100 * (1 - ((it - st.prev_idle : ℕ) : ℚ) / ((tt - st.prev_total : ℕ) : ℚ)))))) ∧
    (∀ (st : CpuUsageState) (user nice system idle iowait irq softirq steal : ℕ),
      collectCpuUsagePercent st user nice system idle iowait irq softirq steal =
        cpuSampleCore st (uint64Mod (idle + iowait))
          (uint64Mod (user + nice + system + idle + iowait + irq + softirq + steal))) ∧
    (∀ (st : CpuUsageState) (it tt : ℕ) (v : ℚ),
      (cpuSampleCore st it tt).2 = some v → 0 ≤ v ∧ v ≤ 100) ∧
    (cpuSampleCore ⟨0, 0, false⟩ 100 1000 = (⟨100, 1000, true⟩, none) ∧
     cpuSampleCore ⟨100, 1000, true⟩ 150 1100 = (⟨150, 1100, true⟩, some 50) ∧
     (cpuSampleCore ⟨150, 1100, true⟩ 140 1050).2 = none) := by
  refine ⟨?_, ?_, ?_, ?_, ?_, ?_, ?_, ?_⟩
  · intro st it tt h
    unfold cpuSampleCore
    rw [if_pos h]
  · intro st it tt h1 h2 h3 h4
    unfold cpuSampleCore
    rw [if_neg (by simp [h1]; omega)]
    simp only
    rw [if_pos (by omega)]
  · intro st it tt h1 h2 h3 h4
    unfold cpuSampleCore
    rw [if_neg (by simp [h1]; omega)]
    simp only
    rw [if_neg (by omega)]
  · intro st user nice system idle iowait irq softirq steal
    rfl
  · intro st it tt v h
    unfold cpuSampleCore at h
    by_cases h1 : st.initialized = false ∨ tt < st.prev_total ∨ it < st.prev_idle
    · rw [if_pos h1] at h
      simp at h
    · rw [if_neg h1] at h
      simp only at h
      by_cases h2 : tt - st.prev_total = 0
      · rw [if_pos h2] at h
        simp at h
      · rw [if_neg h2] at h
        simp only [Option.some.injEq] at h
        subst h
        exact ⟨clampPercent_nonneg _, clampPercent_le_hundred _⟩
  · norm_num [cpuSampleCore]
  · norm_num [cpuSampleCore, clampPercent, min_def, max_def]
  · norm_num [cpuSampleCore]

/-- Witness for C1: applying the non-baseline branch of the theorem at the
concrete (100,1000) → (150,1100) sample discharges the hypotheses and the
evaluated result is exactly 50. -/
theorem collectCpuUsagePercent_spec_witness :
    cpuSampleCore ⟨100, 1000, true⟩ 150 1100 = (⟨150, 1100, true⟩,
      some (clampPercent
        (100 * (1 - ((150 - 100 : ℕ) : ℚ) / ((1100 - 1000 : ℕ) : ℚ))))) ∧
    cpuSampleCore ⟨100, 1000, true⟩ 150 1100 = (⟨150, 1100, true⟩, some 50) :=
  ⟨collectCpuUsagePercent_spec.2.2.1 ⟨100, 1000, true⟩ 150 1100 rfl
      (by norm_num) (by norm_num) (by norm_num),
   by norm_num [cpuSampleCore, clampPercent, min_def, max_def]⟩

/-! ## Claim C9: five polls with linearly increasing counters -/

/-- The synthetic 5-poll counter sequence of the end-to-end property:
idle ticks 100,150,…,300 and total ticks 1000,1100,…,1400. -/
def c9Polls : List (ℕ × ℕ) :=
  [(100, 1000), (150, 1100), (200, 1200), (250, 1300), (300, 1400)]

/-- Counterexample for C9: the claim says 5 polls leave a history series of
length 4 (first poll contributing nothing); the code appends a gap-filled
entry on every poll, so the series has length 5. -/
theorem cpuHistoryRun_length_ne_four :
    (cpuHistoryRun c9Polls 2048).2.length ≠ 4 := by
  norm_num [c9Polls, cpuHistoryRun, cpuSampleCore, appendHistoryValue,
    clampPercent, min_def, max_def]

/-- **C9 (amended).** Running 5 consecutive polls over the synthetic
counter sequence produces a CPU-usage history series of length 5: the
first poll only establishes the sampler baseline, so its missing sample is
gap-filled with 0, and each subsequent stored value equals
`100 * (1 - Δidle/Δtotal)` for its poll. -/
theorem cpuHistoryRun_five_polls :
    (cpuHistoryRun c9Polls 2048).2 =
      0 :: (c9Polls.zip c9Polls.tail).map
        (fun pq => 100 * (1 - ((pq.2.1 - pq.1.1 : ℕ) : ℚ) / ((pq.2.2 - pq.1.2 : ℕ) : ℚ))) ∧
    (cpuHistoryRun c9Polls 2048).2.length = 5 := by
  constructor
  · norm_num [c9Polls, cpuHistoryRun, cpuSampleCore, appendHistoryValue,
      clampPercent, min_def, max_def]
  · norm_num [c9Polls, cpuHistoryRun, cpuSampleCore, appendHistoryValue,
      clampPercent, min_def, max_def]

/-! ## Claim C2: bounded history store -/

lemma getLast?_drop_of_lt {α : Type} {l : List α} {k : ℕ} (h : k < l.length) :
    (l.drop k).getLast? = l.getLast? := by
  rw [List.getLast?_eq_getElem?, List.getLast?_eq_getElem?, List.getElem?_drop,
    List.length_drop]
  congr 1
  omega

/-- The carried-forward value agrees between a history list and the
no-evict history it is a suffix of. -/
lemma carryValue_drop {u : List ℚ} {N : ℕ} (hN : 0 < N) :
    (if (u.drop (u.length - N)).isEmpty then (0 : ℚ)
     else (u.drop (u.length - N)).getLastD 0) =
    (if u.isEmpty then (0 : ℚ) else u.getLastD 0) := by
  cases u with
  | nil => simp
  | cons a as =>
    have hk : (a :: as).length - N < (a :: as).length := by
      simp only [List.length_cons]
      omega
    have hlen : 0 < ((a :: as).drop ((a :: as).length - N)).length := by
      rw [List.length_drop]
      omega
    have hne : ¬ ((a :: as).drop ((a :: as).length - N)).isEmpty = true := by
      rw [List.isEmpty_iff]
      intro hcon
      rw [hcon] at hlen
      simp at hlen
    rw [if_neg hne, if_neg (by simp)]
    rw [List.getLastD_eq_getLast?, List.getLastD_eq_getLast?, getLast?_drop_of_lt hk]

/-- One bounded append step tracks the no-evict append: the bounded series
stays exactly the newest-`N` suffix. -/
lemma appendHistoryValue_drop {N : ℕ} (hN : 0 < N) (u : List ℚ) (v : Option ℚ) :
    appendHistoryValue (u.drop (u.length - N)) v N =
      (appendHistoryNoEvict u v).drop (u.length + 1 - N) := by
  unfold appendHistoryValue appendHistoryNoEvict
  simp only [carryValue_drop hN]
  set nv := clampPercent (v.getD (if u.isEmpty then (0 : ℚ) else u.getLastD 0)) with hnv
  have hblen : (u.drop (u.length - N)).length = u.length - (u.length - N) :=
    List.length_drop _ _
  by_cases hcap : u.length + 1 ≤ N
  · have h0 : u.length - N = 0 := by omega
    rw [h0, List.drop_zero]
    rw [if_neg (by simp only [List.length_append, List.length_singleton]; omega)]
    have h1 : u.length + 1 - N = 0 := by omega
    rw [h1, List.drop_zero]
  · have huN : N ≤ u.length := by omega
    have hblenN : (u.drop (u.length - N)).length = N := by omega
    rw [if_pos (by simp only [List.length_append, List.length_singleton]; omega)]
    have hk : (u.drop (u.length - N) ++ [nv]).length - N = 1 := by
      simp only [List.length_append, List.length_singleton]
      omega
    rw [hk, List.drop_append_of_le_length (by omega), List.drop_drop,
      List.drop_append_of_le_length (by omega)]
    congr 2
    omega

/-- Run form of the previous lemma. -/
lemma historyRun_aux {N : ℕ} (hN : 0 < N) :
    ∀ (vals : List (Option ℚ)) (u : List ℚ),
      vals.foldl (fun s v => appendHistoryValue s v N) (u.drop (u.length - N)) =
        (vals.foldl appendHistoryNoEvict u).drop
          ((vals.foldl appendHistoryNoEvict u).length - N) := by
  intro vals
  induction vals with
  | nil => intro u; simp
  | cons v vs ih =>
    intro u
    simp only [List.foldl_cons]
    have hstep := appendHistoryValue_drop hN u v
    have hlen : (appendHistoryNoEvict u v).length = u.length + 1 := by
      unfold appendHistoryNoEvict
      simp
    rw [hstep, ← hlen]
    exact ih (appendHistoryNoEvict u v)

lemma historyRunNoEvict_len :
    ∀ (vals : List (Option ℚ)) (u : List ℚ),
      (vals.foldl appendHistoryNoEvict u).length = u.length + vals.length := by
  intro vals
  induction vals with
  | nil => intro u; simp
  | cons v vs ih =>
    intro u
    simp only [List.foldl_cons, ih, List.length_cons]
    unfold appendHistoryNoEvict
    simp
    omega

lemma historyRunNoEvict_mem :
    ∀ (vals : List (Option ℚ)) (u : List ℚ),
      (∀ x ∈ u, 0 ≤ x ∧ x ≤ 100) →
      ∀ x ∈ vals.foldl appendHistoryNoEvict u, 0 ≤ x ∧ x ≤ 100 := by
  intro vals
  induction vals with
  | nil => intro u hu; simpa using hu
  | cons v vs ih =>
    intro u hu
    simp only [List.foldl_cons]
    refine ih _ ?_
    intro x hx
    unfold appendHistoryNoEvict at hx
    rcases List.mem_append.mp hx with h | h
    · exact hu x h
    · rcases List.mem_singleton.mp h with rfl
      exact ⟨clampPercent_nonneg _, clampPercent_le_hundred _⟩

/-- The last value of a nonempty history series lies in [0,100] when every
stored value does. -/
lemma getLastD_range {series : List ℚ} (hr : ∀ x ∈ series, 0 ≤ x ∧ x ≤ 100)
    (hne : series ≠ []) : 0 ≤ series.getLastD 0 ∧ series.getLastD 0 ≤ 100 := by
  cases series with
  | nil => exact absurd rfl hne
  | cons a as =>
    rw [List.getLastD_eq_getLast?, List.getLast?_eq_getLast (a :: as) (by simp)]
    simp only [Option.getD_some]
    exact hr _ (List.getLast_mem _)

/-- **C2.** For every capacity `N > 0`: a run of the history store never
exceeds length `N` (length is `min` of append count and `N`), the bounded
series is exactly the newest-`N` suffix of the unbounded append sequence
(oldest entries evicted first), every stored value lies in [0,100], and
appending a missing sample appends the last stored value unchanged (0 for
an empty series) — the series never contains a hole. -/
theorem appendHistoryValue_spec :
    ∀ (vals : List (Option ℚ)) (N : ℕ) (series : List ℚ),
      0 < N → (∀ x ∈ series, 0 ≤ x ∧ x ≤ 100) →
      (historyRun vals N).length = min vals.length N ∧
      historyRun vals N = (historyRunNoEvict vals).drop (vals.length - N) ∧
      (∀ x ∈ historyRun vals N, 0 ≤ x ∧ x ≤ 100) ∧
      (appendHistoryValue series none N).getLast? =
        some (if series.isEmpty then 0 else series.getLastD 0) ∧
      (series.length < N →
        appendHistoryValue series none N =
          series ++ [if series.isEmpty then 0 else series.getLastD 0]) := by
  intro vals N series hN hr
  have hdrop : historyRun vals N = (historyRunNoEvict vals).drop (vals.length - N) := by
    unfold historyRun historyRunNoEvict
    have h0 : ([] : List ℚ) = ([] : List ℚ).drop (([] : List ℚ).length - N) := by simp
    rw [h0, historyRun_aux hN vals []]
    rw [historyRunNoEvict_len vals []]
    simp
  have hcv : clampPercent (if series.isEmpty then (0 : ℚ) else series.getLastD 0) =
      (if series.isEmpty then (0 : ℚ) else series.getLastD 0) := by
    by_cases he : series.isEmpty
    · rw [if_pos he]
      unfold clampPercent
      norm_num
    · rw [if_neg he]
      have hne : series ≠ [] := by
        intro hcon
        rw [hcon] at he
        simp at he
      obtain ⟨h1, h2⟩ := getLastD_range hr hne
      exact clampPercent_eq_self h1 h2
  refine ⟨?_, hdrop, ?_, ?_, ?_⟩
  · rw [hdrop, List.length_drop]
    unfold historyRunNoEvict
    rw [historyRunNoEvict_len vals []]
    simp
    omega
  · intro x hx
    rw [hdrop] at hx
    exact historyRunNoEvict_mem vals [] (by simp) x (List.mem_of_mem_drop hx)
  · unfold appendHistoryValue
    simp only [Option.getD_none, hcv]
    set cv := (if series.isEmpty then (0 : ℚ) else series.getLastD 0) with hcvdef
    by_cases hevict : (series ++ [cv]).length > N
    · rw [if_pos hevict, getLast?_drop_of_lt (by omega), List.getLast?_concat]
    · rw [if_neg hevict, List.getLast?_concat]
  · intro hlt
    unfold appendHistoryValue
    simp only [Option.getD_none, hcv]
    rw [if_neg (by simp only [List.length_append, List.length_singleton]; omega)]

/-- Witness for C2: a run `[some 150, none, some 30]` at capacity 2 —
150 is clamped to 100, the missing sample carries 100 forward, eviction
keeps the newest two entries. -/
theorem appendHistoryValue_spec_witness :
    (historyRun [some 150, none, some 30] 2).length = min 3 2 ∧
    historyRun [some 150, none, some 30] 2 =
      (historyRunNoEvict [some 150, none, some 30]).drop (3 - 2) ∧
    (∀ x ∈ historyRun [some 150, none, some 30] 2, 0 ≤ x ∧ x ≤ 100) ∧
    (appendHistoryValue [(100 : ℚ)] none 2).getLast? =
      some (if ([(100 : ℚ)]).isEmpty then 0 else ([(100 : ℚ)]).getLastD 0) ∧
    (([(100 : ℚ)]).length < 2 →
      appendHistoryValue [(100 : ℚ)] none 2 =
        [(100 : ℚ)] ++ [if ([(100 : ℚ)]).isEmpty then 0 else ([(100 : ℚ)]).getLastD 0]) :=
  appendHistoryValue_spec [some 150, none, some 30] 2 [(100 : ℚ)] (by norm_num)
    (by intro x hx; rcases List.mem_singleton.mp hx with rfl; norm_num)

/-! ## Claim C8: braille rasterizer on a 2-cell horizontal line -/

lemma addCanvasMask_width (c : BrailleCanvas) (x y : ℤ) (m : ℕ) :
    (addCanvasMask c x y m).width = c.width := by
  unfold addCanvasMask
  split <;> rfl

lemma addCanvasMask_height (c : BrailleCanvas) (x y : ℤ) (m : ℕ) :
    (addCanvasMask c x y m).height = c.height := by
  unfold addCanvasMask
  split <;> rfl

lemma addCanvasMask_cellsLength (c : BrailleCanvas) (x y : ℤ) (m : ℕ) :
    (addCanvasMask c x y m).cells.length = c.cells.length := by
  unfold addCanvasMask
  split
  · simp
  · rfl

lemma isInsideCanvas_addCanvasMask (c : BrailleCanvas) (a b x y : ℤ) (m : ℕ) :
    isInsideCanvas (addCanvasMask c a b m) x y = isInsideCanvas c x y := by
  unfold isInsideCanvas addCanvasMask
  split <;> rfl

lemma cellIdx_addCanvasMask (c : BrailleCanvas) (a b x y : ℤ) (m : ℕ) :
    cellIdx (addCanvasMask c a b m) x y = cellIdx c x y := by
  unfold cellIdx addCanvasMask
  split <;> rfl

/-- Decompose the in-bounds check. -/
lemma isInsideCanvas_iff {c : BrailleCanvas} {x y : ℤ} :
    isInsideCanvas c x y = true ↔ 0 ≤ x ∧ 0 ≤ y ∧ x < c.width ∧ y < c.height := by
  unfold isInsideCanvas
  simp [Bool.and_eq_true, decide_eq_true_eq, and_assoc]

/-- An in-bounds cell index addresses the backing store of a well-formed
canvas. -/
lemma cellIdx_lt {c : BrailleCanvas} {x y : ℤ}
    (hwf : c.cells.length = (c.width * c.height).toNat)
    (h : isInsideCanvas c x y = true) : cellIdx c x y < c.cells.length := by
  obtain ⟨hx0, hy0, hxw, hyh⟩ := isInsideCanvas_iff.mp h
  rw [hwf]
  unfold cellIdx
  have hw0 : 0 < c.width := by omega
  have hA0 : 0 ≤ y * c.width + x := by
    have := mul_nonneg hy0 (le_of_lt hw0)
    omega
  have hAB : y * c.width + x < c.width * c.height := by
    have h5 : y * c.width + x < (y + 1) * c.width := by
      rw [add_mul, one_mul]
      omega
    have h6 : (y + 1) * c.width ≤ c.height * c.width :=
      mul_le_mul_of_nonneg_right (by omega) (le_of_lt hw0)
    rw [mul_comm c.width c.height]
    omega
  omega

lemma getCanvasMask_addCanvasMask_self {c : BrailleCanvas} {x y : ℤ}
    (hwf : c.cells.length = (c.width * c.height).toNat)
    (h : isInsideCanvas c x y = true) (m : ℕ) :
    getCanvasMask (addCanvasMask c x y m) x y = getCanvasMask c x y ||| m := by
  have hidx := cellIdx_lt hwf h
  unfold cellIdx at hidx
  unfold getCanvasMask addCanvasMask
  rw [if_pos h]
  simp only [cellIdx, List.getD_eq_getElem?_getD, List.getElem?_set_self hidx,
    Option.getD_some]

lemma getCanvasMask_addCanvasMask_ne {c : BrailleCanvas} {x y x' y' : ℤ}
    (h : cellIdx c x' y' ≠ cellIdx c x y) (m : ℕ) :
    getCanvasMask (addCanvasMask c x' y' m) x y = getCanvasMask c x y := by
  unfold cellIdx at h
  unfold getCanvasMask addCanvasMask
  split
  · simp only [cellIdx, List.getD_eq_getElem?_getD, List.getElem?_set_ne h]
  · rfl

/-- Well-formedness is preserved by `addCanvasMask`. -/
lemma wf_addCanvasMask {c : BrailleCanvas} (x y : ℤ) (m : ℕ)
    (hwf : c.cells.length = (c.width * c.height).toNat) :
    (addCanvasMask c x y m).cells.length =
      ((addCanvasMask c x y m).width * (addCanvasMask c x y m).height).toNat := by
  rw [addCanvasMask_cellsLength, addCanvasMask_width, addCanvasMask_height, hwf]

lemma connectCanvasCells_right {c : BrailleCanvas} {x y : ℤ}
    (h0 : isInsideCanvas c x y = true) (h1 : isInsideCanvas c (x+1) y = true) :
    connectCanvasCells c x y (x+1) y =
      addCanvasMask (addCanvasMask c x y kDirRight) (x+1) y kDirLeft := by
  unfold connectCanvasCells
  rw [if_neg (by simp [h0, h1]), if_pos ⟨rfl, rfl⟩]

lemma bresenhamLoop_horizontal (c : BrailleCanvas) (x y : ℤ) :
    bresenhamLoop (x+1) y 1 (-1) 1 0 1 c x y 1 =
      addCanvasMask (connectCanvasCells c x y (x+1) y) (x+1) y kDirPoint := by
  have hne : ¬ (x = x + 1 ∧ y = y) := by
    intro h
    omega
  unfold bresenhamLoop
  rw [if_neg hne]
  norm_num [bresenhamLoop]

/-- A 2-cell horizontal line rasterizes to exactly four mask additions:
point+right at the left cell, left+point at the right cell. -/
lemma rasterize_horizontal (c : BrailleCanvas) (x y : ℤ)
    (h0 : isInsideCanvas c x y = true) (h1 : isInsideCanvas c (x+1) y = true) :
    rasterizeBrailleLine c x y (x+1) y =
      addCanvasMask (addCanvasMask (addCanvasMask (addCanvasMask c x y kDirPoint)
        x y kDirRight) (x+1) y kDirLeft) (x+1) y kDirPoint := by
  unfold rasterizeBrailleLine
  rw [if_neg (by simp [h0, h1])]
  have e1 : x + 1 - x = (1 : ℤ) := by ring
  have e2 : y - y = (0 : ℤ) := by ring
  have e3 : x < x + 1 := by omega
  have e4 : ¬ (y < y) := by omega
  simp only [e1, e2, abs_one, abs_zero, if_pos e3, if_neg e4]
  norm_num
  rw [bresenhamLoop_horizontal]
  rw [connectCanvasCells_right (by rw [isInsideCanvas_addCanvasMask]; exact h0)
    (by rw [isInsideCanvas_addCanvasMask]; exact h1)]

lemma cellIdx_succ_ne {c : BrailleCanvas} {x y : ℤ}
    (h0 : isInsideCanvas c x y = true) : cellIdx c (x + 1) y ≠ cellIdx c x y := by
  obtain ⟨hx0, hy0, hxw, hyh⟩ := isInsideCanvas_iff.mp h0
  unfold cellIdx
  have hA : 0 ≤ y * c.width := mul_nonneg hy0 (by omega)
  have hA2 : 0 ≤ y * c.width + x := by omega
  have hrw : y * c.width + (x + 1) = (y * c.width + x) + 1 := by ring
  rw [hrw]
  generalize y * c.width + x = A at hA2 ⊢
  omega

/-- **C8.** On every well-formed canvas, rasterizing the 2-cell horizontal
line from (x,y) to (x+1,y) ORs the right-direction and point bits into
(x,y) and the left-direction and point bits into (x+1,y); a right-only or
left-only direction mask (with the point bit) renders as the horizontal
box-drawing glyph U+2500, and a point-only mask renders as the middle dot
U+00B7. -/
theorem rasterizeBrailleLine_horizontal_spec :
    ∀ (c : BrailleCanvas) (x y : ℤ),
      c.cells.length = (c.width * c.height).toNat →
      isInsideCanvas c x y = true → isInsideCanvas c (x + 1) y = true →
      getCanvasMask (rasterizeBrailleLine c x y (x + 1) y) x y
          = getCanvasMask c x y ||| kDirPoint ||| kDirRight ∧
      getCanvasMask (rasterizeBrailleLine c x y (x + 1) y) (x + 1) y
          = getCanvasMask c (x + 1) y ||| kDirLeft ||| kDirPoint ∧
      glyphForMask (kDirRight ||| kDirPoint) = 0x2500 ∧
      glyphForMask (kDirLeft ||| kDirPoint) = 0x2500 ∧
      glyphForMask kDirPoint = 0xb7 := by
  intro c x y hwf h0 h1
  have hne : cellIdx c (x + 1) y ≠ cellIdx c x y := cellIdx_succ_ne h0
  rw [rasterize_horizontal c x y h0 h1]
  have hwf1 := wf_addCanvasMask x y kDirPoint hwf
  have hwf2 := wf_addCanvasMask x y kDirRight hwf1
  have hin0 : ∀ a b (m : ℕ), isInsideCanvas (addCanvasMask c a b m) x y = true := by
    intro a b m
    rw [isInsideCanvas_addCanvasMask]
    exact h0
  refine ⟨?_, ?_, by decide, by decide, by decide⟩
  · rw [getCanvasMask_addCanvasMask_ne (by simpa [cellIdx_addCanvasMask] using hne),
      getCanvasMask_addCanvasMask_ne (by simpa [cellIdx_addCanvasMask] using hne),
      getCanvasMask_addCanvasMask_self hwf1 (by rw [isInsideCanvas_addCanvasMask]; exact h0),
      getCanvasMask_addCanvasMask_self hwf h0]
  · rw [getCanvasMask_addCanvasMask_self
        (wf_addCanvasMask _ _ kDirLeft hwf2)
        (by simp only [isInsideCanvas_addCanvasMask]; exact h1),
      getCanvasMask_addCanvasMask_self hwf2
        (by simp only [isInsideCanvas_addCanvasMask]; exact h1),
      getCanvasMask_addCanvasMask_ne (by simpa [cellIdx_addCanvasMask] using Ne.symm hne),
      getCanvasMask_addCanvasMask_ne (by simpa [cellIdx_addCanvasMask] using Ne.symm hne)]

/-- Witness for C8: the freshly created 2×1 canvas, line (0,0)→(1,0); the
resulting masks are point|right = 24 and left|point = 20. -/
theorem rasterizeBrailleLine_horizontal_spec_witness :
    (getCanvasMask (rasterizeBrailleLine (createBrailleCanvas 2 1) 0 0 1 0) 0 0
        = getCanvasMask (createBrailleCanvas 2 1) 0 0 ||| kDirPoint ||| kDirRight ∧
     getCanvasMask (rasterizeBrailleLine (createBrailleCanvas 2 1) 0 0 1 0) 1 0
        = getCanvasMask (createBrailleCanvas 2 1) 1 0 ||| kDirLeft ||| kDirPoint ∧
     glyphForMask (kDirRight ||| kDirPoint) = 0x2500 ∧
     glyphForMask (kDirLeft ||| kDirPoint) = 0x2500 ∧
     glyphForMask kDirPoint = 0xb7) ∧
    getCanvasMask (rasterizeBrailleLine (createBrailleCanvas 2 1) 0 0 1 0) 0 0 = 24 ∧
    getCanvasMask (rasterizeBrailleLine (createBrailleCanvas 2 1) 0 0 1 0) 1 0 = 20 :=
  ⟨by
    have h := rasterizeBrailleLine_horizontal_spec (createBrailleCanvas 2 1) 0 0
      (by decide) (by decide) (by decide)
    simpa using h,
   by decide, by decide⟩

/-! ## Claim C10: display-GPU selection stays in bounds -/

/-- Generic fold invariant. -/
lemma foldl_preserve {α β : Type} (f : β → α → β) (P : β → Prop) :
    ∀ (l : List α) (s : β), P s → (∀ b a, a ∈ l → P b → P (f b a)) →
      P (l.foldl f s) := by
  intro l
  induction l with
  | nil => intro s hs _; exact hs
  | cons a rest ih =>
    intro s hs h
    exact ih _ (h s a (by simp) hs) (fun b a' ha' hb => h b a' (by simp [ha']) hb)

lemma scanGpuIndices_le (gpus : List GpuMetrics) :
    (scanGpuIndices gpus).first_with_telemetry ≤ gpus.length ∧
    (scanGpuIndices gpus).intel_with_telemetry ≤ gpus.length ∧
    (scanGpuIndices gpus).first_intel ≤ gpus.length := by
  have h := foldl_preserve
    (fun (s : GpuScan) (i : ℕ) =>
      let g := gpus.getD i default
      let isIntel := gpuLooksIntel g
      let s :=
        if isIntel && s.first_intel = gpus.length then { s with first_intel := i } else s
      if gpuHasTelemetry g then
        let s :=
          if s.first_with_telemetry = gpus.length then { s with first_with_telemetry := i }
          else s
        if isIntel && s.intel_with_telemetry = gpus.length then
          { s with intel_with_telemetry := i }
        else s
      else s)
    (fun s => s.first_with_telemetry ≤ gpus.length ∧
      s.intel_with_telemetry ≤ gpus.length ∧ s.first_intel ≤ gpus.length)
    (List.range gpus.length) ⟨gpus.length, gpus.length, gpus.length⟩
    ⟨le_rfl, le_rfl, le_rfl⟩ ?_
  · exact h
  · intro b i hi hb
    obtain ⟨hb1, hb2, hb3⟩ := hb
    have hilt : i < gpus.length := List.mem_range.mp hi
    dsimp only
    split_ifs <;> refine ⟨?_, ?_, ?_⟩ <;> simp_all <;> omega

/-- **C10.** For every non-empty GPU list, the display-GPU selection
returns an index strictly below the list length — each of its fallbacks
yields either a scanned valid index or index 0 — so the unguarded accesses
of the GPU-usage and VRAM-usage computations behind their emptiness check
are in bounds: the accessed element is an actual list element. -/
theorem pickDisplayGpuIndex_spec : ∀ gpus : List GpuMetrics, gpus ≠ [] →
    pickDisplayGpuIndex gpus < gpus.length ∧
    (∃ h : pickDisplayGpuIndex gpus < gpus.length,
      gpus.getD (pickDisplayGpuIndex gpus) default = gpus.get ⟨pickDisplayGpuIndex gpus, h⟩) ∧
    gpus.getD (pickDisplayGpuIndex gpus) default ∈ gpus ∧
    computeGpuUsagePercent gpus =
      (gpus.getD (pickDisplayGpuIndex gpus) default).utilization_percent := by
  intro gpus hne
  have hn : 0 < gpus.length := List.length_pos.mpr hne
  have hempty : gpus.isEmpty = false := by
    cases gpus with
    | nil => exact absurd rfl hne
    | cons a as => rfl
  obtain ⟨h1, h2, h3⟩ := scanGpuIndices_le gpus
  have hlt : pickDisplayGpuIndex gpus < gpus.length := by
    unfold pickDisplayGpuIndex
    rw [hempty]
    simp only [Bool.false_eq_true, if_false]
    split_ifs <;> omega
  refine ⟨hlt, ⟨hlt, ?_⟩, ?_, ?_⟩
  · rw [List.getD_eq_getElem?_getD, List.getElem?_eq_getElem hlt]
    rfl
  · rw [List.getD_eq_getElem?_getD, List.getElem?_eq_getElem hlt, Option.getD_some]
    exact List.getElem_mem hlt
  · unfold computeGpuUsagePercent
    rw [hempty]
    rfl

/-- Witness for C10: a singleton GPU list; the selection picks index 0 and
the accessed element is the GPU itself. -/
theorem pickDisplayGpuIndex_spec_witness :
    pickDisplayGpuIndex [({} : GpuMetrics)] < 1 ∧
    (∃ h : pickDisplayGpuIndex [({} : GpuMetrics)] < 1,
      ([({} : GpuMetrics)]).getD (pickDisplayGpuIndex [({} : GpuMetrics)]) default =
        ([({} : GpuMetrics)]).get ⟨pickDisplayGpuIndex [({} : GpuMetrics)], h⟩) ∧
    ([({} : GpuMetrics)]).getD (pickDisplayGpuIndex [({} : GpuMetrics)]) default ∈
      [({} : GpuMetrics)] ∧
    computeGpuUsagePercent [({} : GpuMetrics)] =
      (([({} : GpuMetrics)]).getD (pickDisplayGpuIndex [({} : GpuMetrics)])
        default).utilization_percent := by
  have h := pickDisplayGpuIndex_spec [({} : GpuMetrics)] (by simp)
  simpa using h

/-! ## Claim C4: telemetry-score ordering, stability, monotonicity -/

lemma insertSorted_cons_pos {α : Type} {lt : α → α → Bool} {x y : α} {ys : List α}
    (h : lt y x = true) :
    insertSorted lt x (y :: ys) = y :: insertSorted lt x ys := by
  simp [insertSorted, h]

lemma insertSorted_cons_neg {α : Type} {lt : α → α → Bool} {x y : α} {ys : List α}
    (h : ¬ lt y x = true) :
    insertSorted lt x (y :: ys) = x :: y :: ys := by
  simp [insertSorted, h]

lemma insertSorted_perm {α : Type} (lt : α → α → Bool) (x : α) :
    ∀ l : List α, List.Perm (insertSorted lt x l) (x :: l) := by
  intro l
  induction l with
  | nil => simp [insertSorted]
  | cons y ys ih =>
    by_cases h : lt y x = true
    · rw [insertSorted_cons_pos h]
      exact (ih.cons y).trans (List.Perm.swap x y ys)
    · rw [insertSorted_cons_neg h]

lemma stableSort_perm {α : Type} (lt : α → α → Bool) :
    ∀ l : List α, List.Perm (stableSort lt l) l := by
  intro l
  induction l with
  | nil => exact List.Perm.refl _
  | cons x xs ih =>
    unfold stableSort
    exact (insertSorted_perm lt x _).trans (ih.cons x)

/-- Inserting into a list sorted for a strict asymmetric comparator keeps
it sorted (adjacent-pairs form). -/
lemma chain'_insertSorted {α : Type} (lt : α → α → Bool)
    (hasym : ∀ a b, lt a b = true → lt b a = false) (x : α) :
    ∀ l : List α, l.Chain' (fun a b => lt b a = false) →
      (insertSorted lt x l).Chain' (fun a b => lt b a = false) := by
  intro l
  induction l with
  | nil => intro _; simp [insertSorted]
  | cons y ys ih =>
    intro hchain
    have hys := hchain.tail
    by_cases hyx : lt y x = true
    · rw [insertSorted_cons_pos hyx]
      cases ys with
      | nil =>
        simp only [insertSorted]
        exact List.chain'_pair.mpr (hasym _ _ hyx)
      | cons z zs =>
        by_cases hzx : lt z x = true
        · rw [insertSorted_cons_pos hzx]
          rw [List.chain'_cons]
          refine ⟨(List.chain'_cons.mp hchain).1, ?_⟩
          rw [← insertSorted_cons_pos hzx]
          exact ih hys
        · rw [insertSorted_cons_neg hzx]
          rw [List.chain'_cons, List.chain'_cons]
          exact ⟨hasym _ _ hyx, Bool.eq_false_iff.mpr hzx, hys⟩
    · rw [insertSorted_cons_neg hyx]
      rw [List.chain'_cons]
      exact ⟨Bool.eq_false_iff.mpr hyx, hchain⟩

lemma chain'_stableSort {α : Type} (lt : α → α → Bool)
    (hasym : ∀ a b, lt a b = true → lt b a = false) :
    ∀ l : List α, (stableSort lt l).Chain' (fun a b => lt b a = false) := by
  intro l
  induction l with
  | nil => simp [stableSort]
  | cons x xs ih =>
    unfold stableSort
    exact chain'_insertSorted lt hasym x _ ih

/-- Stability of the insertion step: position tags of key-equal elements
stay ordered, provided key-equal elements never compare strictly. -/
lemma insertSorted_stable {α : Type} (lt : α → α → Bool) (K : α → α → Prop)
    (hK : ∀ a b, K a b → lt a b = false) (x : ℕ × α) :
    ∀ l : List (ℕ × α),
      l.Pairwise (fun p q => K p.2 q.2 → p.1 < q.1) →
      (∀ q ∈ l, x.1 < q.1) →
      (insertSorted (fun p q => lt p.2 q.2) x l).Pairwise
        (fun p q => K p.2 q.2 → p.1 < q.1) := by
  intro l
  induction l with
  | nil => intro _ _; simp [insertSorted]
  | cons y ys ih =>
    intro hp hx
    unfold insertSorted
    by_cases hyx : lt y.2 x.2 = true
    · rw [if_pos hyx]
      rw [List.pairwise_cons]
      constructor
      · intro z hz
        have hz' : z ∈ x :: ys :=
          (insertSorted_perm (fun p q => lt p.2 q.2) x ys).mem_iff.mp hz
        rcases List.mem_cons.mp hz' with rfl | hzys
        · intro hk
          rw [hK _ _ hk] at hyx
          exact absurd hyx (by simp)
        · exact (List.pairwise_cons.mp hp).1 z hzys
      · exact ih (List.pairwise_cons.mp hp).2 (fun q hq => hx q (by simp [hq]))
    · rw [if_neg hyx]
      rw [List.pairwise_cons]
      exact ⟨fun z hz _ => hx z hz, hp⟩

/-- Stability of the whole sort on position-tagged lists. -/
lemma stableSort_stable {α : Type} (lt : α → α → Bool) (K : α → α → Prop)
    (hK : ∀ a b, K a b → lt a b = false) :
    ∀ l : List (ℕ × α), l.Pairwise (fun p q => p.1 < q.1) →
      (stableSort (fun p q => lt p.2 q.2) l).Pairwise
        (fun p q => K p.2 q.2 → p.1 < q.1) := by
  intro l
  induction l with
  | nil => intro _; simp [stableSort]
  | cons x xs ih =>
    intro hp
    unfold stableSort
    refine insertSorted_stable lt K hK x _ (ih (List.pairwise_cons.mp hp).2) ?_
    intro q hq
    exact (List.pairwise_cons.mp hp).1 q
      ((stableSort_perm (fun p q => lt p.2 q.2) xs).mem_iff.mp hq)

lemma charListLt_irrefl : ∀ l : List Char, charListLt l l = false := by
  intro l
  induction l with
  | nil => rfl
  | cons a as ih =>
    unfold charListLt
    rw [if_neg (lt_irrefl a), if_neg (lt_irrefl a)]
    exact ih

lemma charListLt_asymm : ∀ l m : List Char,
    charListLt l m = true → charListLt m l = false := by
  intro l
  induction l with
  | nil =>
    intro m h
    cases m with
    | nil => exact absurd h (by simp [charListLt])
    | cons b bs => rfl
  | cons a as ih =>
    intro m h
    cases m with
    | nil => exact absurd h (by simp [charListLt])
    | cons b bs =>
      unfold charListLt at h ⊢
      by_cases hab : a < b
      · rw [if_neg (asymm hab), if_pos hab]
      · by_cases hba : b < a
        · rw [if_neg hab, if_pos hba] at h
          exact absurd h (by simp)
        · rw [if_neg hab, if_neg hba] at h
          rw [if_neg hba, if_neg hab]
          exact ih bs h

lemma gpuLt_asymm : ∀ a b : GpuMetrics, gpuLt a b = true → gpuLt b a = false := by
  intro a b h
  unfold gpuLt at h ⊢
  by_cases hsc : telemetryScore a = telemetryScore b
  · rw [if_neg (by omega)] at h
    rw [if_neg (by omega)]
    exact charListLt_asymm _ _ h
  · rw [if_pos hsc] at h
    rw [if_pos (by omega)]
    simp only [decide_eq_true_eq] at h
    simp only [decide_eq_false_iff_not]
    omega

lemma gpuLt_of_key_eq {a b : GpuMetrics} (hs : telemetryScore a = telemetryScore b)
    (hn : a.name = b.name) : gpuLt a b = false := by
  unfold gpuLt
  rw [if_neg (by omega)]
  unfold strLt
  rw [hn]
  exact charListLt_irrefl _

/-- The negated comparator in adjacency form: the later record scores no
higher, and on equal scores its name is not lexicographically smaller. -/
lemma gpuLt_eq_false_iff {a b : GpuMetrics} :
    gpuLt b a = false ↔
      telemetryScore b ≤ telemetryScore a ∧
        (telemetryScore a = telemetryScore b → strLt b.name a.name = false) := by
  unfold gpuLt
  by_cases hsc : telemetryScore b = telemetryScore a
  · rw [if_neg (by omega)]
    constructor
    · intro h
      exact ⟨by omega, fun _ => h⟩
    · intro h
      exact h.2 (by omega)
  · rw [if_pos (by omega)]
    constructor
    · intro h
      simp only [decide_eq_false_iff_not] at h
      exact ⟨by omega, fun hc => absurd hc (by omega)⟩
    · intro h
      simp only [decide_eq_false_iff_not]
      omega

/-- Field-population comparison: `h` has every optional telemetry field `g`
has. -/
def populatedLe (g h : GpuMetrics) : Prop :=
  (g.temperature_c.isSome = true → h.temperature_c.isSome = true) ∧
  (g.core_clock_mhz.isSome = true → h.core_clock_mhz.isSome = true) ∧
  (g.utilization_percent.isSome = true → h.utilization_percent.isSome = true) ∧
  (g.power_w.isSome = true → h.power_w.isSome = true) ∧
  (g.memory_used_mib.isSome = true → h.memory_used_mib.isSome = true) ∧
  (g.memory_total_mib.isSome = true → h.memory_total_mib.isSome = true) ∧
  (g.memory_utilization_percent.isSome = true → h.memory_utilization_percent.isSome = true)

instance (g h : GpuMetrics) : Decidable (populatedLe g h) := by
  unfold populatedLe
  infer_instance

lemma boolIf_mono {b1 b2 : Bool} (h : b1 = true → b2 = true) (k : ℕ) :
    (if b1 then k else 0) ≤ (if b2 then k else 0) := by
  cases b1 <;> cases b2 <;> simp_all

lemma telemetryScore_mono : ∀ g h : GpuMetrics, populatedLe g h →
    telemetryScore g ≤ telemetryScore h := by
  intro g h hp
  obtain ⟨h1, h2, h3, h4, h5, h6, h7⟩ := hp
  have hmem : (g.memory_used_mib.isSome || g.memory_total_mib.isSome) = true →
      (h.memory_used_mib.isSome || h.memory_total_mib.isSome) = true := by
    intro hor
    rcases Bool.or_eq_true_iff.mp hor with hu | ht
    · exact Bool.or_eq_true_iff.mpr (Or.inl (h5 hu))
    · exact Bool.or_eq_true_iff.mpr (Or.inr (h6 ht))
  have t1 := boolIf_mono h1 2
  have t2 := boolIf_mono h2 2
  have t3 := boolIf_mono h3 3
  have t4 := boolIf_mono h4 2
  have t5 := boolIf_mono hmem 2
  have t6 := boolIf_mono h7 1
  unfold telemetryScore
  omega

/-- **C4.** Every GPU list returned by fusion is ordered so that adjacent
records have non-increasing telemetry score with equal-score ties in
ascending name order; the sort is stable — records with equal score and
name keep their input order; and the telemetry score is monotonic in the
populated optional fields. -/
theorem telemetryOrder_spec :
    (∀ (nvidia : List GpuMetrics) (cards : List CardEnv) (fb : Option ℚ),
      (collectGpus nvidia cards fb).Chain'
        (fun a b => telemetryScore b ≤ telemetryScore a ∧
          (telemetryScore a = telemetryScore b → strLt b.name a.name = false))) ∧
    (∀ l : List (ℕ × GpuMetrics),
      l.Pairwise (fun p q => p.1 < q.1) →
      (stableSort (fun p q => gpuLt p.2 q.2) l).Pairwise
        (fun p q => (telemetryScore p.2 = telemetryScore q.2 ∧ p.2.name = q.2.name) →
          p.1 < q.1)) ∧
    (∀ g h : GpuMetrics, populatedLe g h → telemetryScore g ≤ telemetryScore h) := by
  have hsorted : ∀ l : List GpuMetrics,
      (stableSort gpuLt l).Chain'
        (fun a b => telemetryScore b ≤ telemetryScore a ∧
          (telemetryScore a = telemetryScore b → strLt b.name a.name = false)) := by
    intro l
    exact (chain'_stableSort gpuLt gpuLt_asymm l).imp
      (fun a b h => gpuLt_eq_false_iff.mp h)
  refine ⟨?_, ?_, telemetryScore_mono⟩
  · intro nvidia cards fb
    unfold collectGpus fuseGpus
    split
    · exact hsorted _
    · exact hsorted _
  · intro l hp
    exact stableSort_stable gpuLt
      (fun g h => telemetryScore g = telemetryScore h ∧ g.name = h.name)
      (fun a b hk => gpuLt_of_key_eq hk.1 hk.2) l hp

/-- Witness for C4: stability on a two-element key-equal tagged list, and
monotonicity from a bare record to one with a utilization reading. -/
theorem telemetryOrder_spec_witness :
    (stableSort (fun p q : ℕ × GpuMetrics => gpuLt p.2 q.2)
        [(0, ({} : GpuMetrics)), (1, ({} : GpuMetrics))]).Pairwise
      (fun p q => (telemetryScore p.2 = telemetryScore q.2 ∧ p.2.name = q.2.name) →
        p.1 < q.1) ∧
    telemetryScore ({} : GpuMetrics) ≤
      telemetryScore ({ utilization_percent := some 7 } : GpuMetrics) :=
  ⟨telemetryOrder_spec.2.1 [(0, ({} : GpuMetrics)), (1, ({} : GpuMetrics))] (by decide),
   telemetryOrder_spec.2.2 ({} : GpuMetrics) ({ utilization_percent := some 7 } : GpuMetrics)
     (by decide)⟩

/-! ## Claims C3 and C5: fusion consumption accounting -/

lemma pickUnused_some (used : ℕ → Bool) :
    ∀ (q : List ℕ) (i : ℕ), (pickUnused used q).1 = some i →
      used i = false ∧ i ∈ q := by
  intro q
  induction q with
  | nil => intro i h; exact absurd h (by simp [pickUnused])
  | cons j rest ih =>
    intro i h
    unfold pickUnused at h
    by_cases hj : used j = true
    · rw [if_pos hj] at h
      obtain ⟨h1, h2⟩ := ih i h
      exact ⟨h1, by simp [h2]⟩
    · rw [if_neg hj] at h
      simp only [Option.some.injEq] at h
      subst h
      exact ⟨by simpa using hj, by simp⟩

lemma pickUnused_rest (used : ℕ → Bool) :
    ∀ (q : List ℕ), ∀ j ∈ (pickUnused used q).2, j ∈ q := by
  intro q
  induction q with
  | nil => intro j h; exact absurd h (by simp [pickUnused])
  | cons k rest ih =>
    intro j h
    unfold pickUnused at h
    by_cases hk : used k = true
    · rw [if_pos hk] at h
      exact by simp [ih j h]
    · rw [if_neg hk] at h
      simp only at h
      simp [h]

lemma pickSupplement_some (used : ℕ → Bool) (nvQ anyQ : List ℕ) (i : ℕ)
    (h : (pickSupplement used nvQ anyQ).1 = some i) :
    used i = false ∧ (i ∈ nvQ ∨ i ∈ anyQ) := by
  unfold pickSupplement at h
  rcases hpn : pickUnused used nvQ with ⟨c, nvRest⟩
  rw [hpn] at h
  cases c with
  | some j =>
    simp only [Option.some.injEq] at h
    subst h
    have hj := pickUnused_some used nvQ j (by rw [hpn])
    exact ⟨hj.1, Or.inl hj.2⟩
  | none =>
    rcases hpa : pickUnused used anyQ with ⟨c2, anyRest⟩
    rw [hpa] at h
    simp only at h
    have hj := pickUnused_some used anyQ i (by rw [hpa]; exact h)
    exact ⟨hj.1, Or.inr hj.2⟩

lemma pickSupplement_queues (used : ℕ → Bool) (nvQ anyQ : List ℕ) :
    (∀ j ∈ (pickSupplement used nvQ anyQ).2.1, j ∈ nvQ) ∧
    (∀ j ∈ (pickSupplement used nvQ anyQ).2.2, j ∈ anyQ) := by
  unfold pickSupplement
  rcases hpn : pickUnused used nvQ with ⟨c, nvRest⟩
  cases c with
  | some j =>
    simp only
    exact ⟨fun j hj => pickUnused_rest used nvQ j (by rw [hpn]; exact hj),
      fun j hj => hj⟩
  | none =>
    rcases hpa : pickUnused used anyQ with ⟨c2, anyRest⟩
    simp only
    exact ⟨fun j hj => pickUnused_rest used nvQ j (by rw [hpn]; exact hj),
      fun j hj => pickUnused_rest used anyQ j (by rw [hpa]; exact hj)⟩

lemma mergeGpuList_len (sysfs : List GpuMetrics) :
    ∀ (rest : List GpuMetrics) (used : ℕ → Bool) (nvQ anyQ : List ℕ),
      (mergeGpuList sysfs rest used nvQ anyQ).1.length = rest.length := by
  intro rest
  induction rest with
  | nil => intro used nvQ anyQ; rfl
  | cons base bs ih =>
    intro used nvQ anyQ
    unfold mergeGpuList
    rcases hps : pickSupplement used nvQ anyQ with ⟨c, nvRest, anyRest⟩
    cases c with
    | none => simp [ih]
    | some i => simp [ih]

lemma mergeGpuList_consumed (sysfs : List GpuMetrics) :
    ∀ (rest : List GpuMetrics) (used : ℕ → Bool) (nvQ anyQ : List ℕ),
      (∀ j ∈ nvQ, j < sysfs.length) → (∀ j ∈ anyQ, j < sysfs.length) →
      ((mergeGpuList sysfs rest used nvQ anyQ).2.2.Nodup ∧
        ∀ i ∈ (mergeGpuList sysfs rest used nvQ anyQ).2.2,
          used i = false ∧ i < sysfs.length) := by
  intro rest
  induction rest with
  | nil =>
    intro used nvQ anyQ _ _
    exact ⟨List.nodup_nil, by simp [mergeGpuList]⟩
  | cons base bs ih =>
    intro used nvQ anyQ hnv hany
    unfold mergeGpuList
    rcases hps : pickSupplement used nvQ anyQ with ⟨c, nvRest, anyRest⟩
    have hqs := pickSupplement_queues used nvQ anyQ
    rw [hps] at hqs
    simp only at hqs
    cases c with
    | none =>
      simp only
      exact ih used nvRest anyRest (fun j hj => hnv j (hqs.1 j hj))
        (fun j hj => hany j (hqs.2 j hj))
    | some i =>
      obtain ⟨hiu, him⟩ := pickSupplement_some used nvQ anyQ i (by rw [hps])
      have hilt : i < sysfs.length := by
        rcases him with h | h
        exacts [hnv i h, hany i h]
      obtain ⟨hnd, hmem⟩ := ih (fun j => if j = i then true else used j) nvRest anyRest
        (fun j hj => hnv j (hqs.1 j hj)) (fun j hj => hany j (hqs.2 j hj))
      simp only
      constructor
      · refine List.nodup_cons.mpr ⟨?_, hnd⟩
        intro hcon
        have := (hmem i hcon).1
        simp at this
      · intro j hj
        rcases List.mem_cons.mp hj with rfl | hjtail
        · exact ⟨hiu, hilt⟩
        · obtain ⟨hju, hjlt⟩ := hmem j hjtail
          refine ⟨?_, hjlt⟩
          by_cases hji : j = i
          · subst hji
            simp at hju
          · simpa [hji] using hju

lemma mergeGpuList_used_iff (sysfs : List GpuMetrics) :
    ∀ (rest : List GpuMetrics) (used : ℕ → Bool) (nvQ anyQ : List ℕ) (k : ℕ),
      ((mergeGpuList sysfs rest used nvQ anyQ).2.1 k = true ↔
        (used k = true ∨ k ∈ (mergeGpuList sysfs rest used nvQ anyQ).2.2)) := by
  intro rest
  induction rest with
  | nil => intro used nvQ anyQ k; simp [mergeGpuList]
  | cons base bs ih =>
    intro used nvQ anyQ k
    unfold mergeGpuList
    rcases hps : pickSupplement used nvQ anyQ with ⟨c, nvRest, anyRest⟩
    cases c with
    | none => simpa using ih used nvRest anyRest k
    | some i =>
      simp only
      rw [ih (fun j => if j = i then true else used j) nvRest anyRest k]
      by_cases hki : k = i
      · subst hki
        simp
      · simp only [if_neg hki, List.mem_cons]
        tauto

lemma nvidiaSysfsIdxs_lt (sysfs : List GpuMetrics) :
    ∀ j ∈ nvidiaSysfsIdxs sysfs, j < sysfs.length := by
  intro j hj
  unfold nvidiaSysfsIdxs at hj
  exact List.mem_range.mp (List.mem_filter.mp hj).1

/-- **C3.** For every fusion input with at least one nvidia-smi record and
at least one sysfs record, the fused output has at least as many records as
the nvidia-smi probe produced, and no sysfs record index is consumed as a
supplement more than once (the consumed indices are distinct and valid). -/
theorem fuseGpus_output_spec :
    ∀ (nvidia sysfs : List GpuMetrics) (fb : Option ℚ),
      nvidia ≠ [] → sysfs ≠ [] →
      nvidia.length ≤ (fuseGpus nvidia sysfs fb).length ∧
      (fuseConsumed nvidia sysfs).Nodup ∧
      ∀ i ∈ fuseConsumed nvidia sysfs, i < sysfs.length := by
  intro nvidia sysfs fb hnv _
  have hempty : nvidia.isEmpty = false := by
    cases nvidia with
    | nil => exact absurd rfl hnv
    | cons a as => rfl
  obtain ⟨hnd, hmem⟩ := mergeGpuList_consumed sysfs nvidia (fun _ => false)
    (nvidiaSysfsIdxs sysfs) (List.range sysfs.length)
    (nvidiaSysfsIdxs_lt sysfs) (fun j hj => List.mem_range.mp hj)
  refine ⟨?_, hnd, fun i hi => (hmem i hi).2⟩
  unfold fuseGpus
  rw [hempty]
  simp only [Bool.false_eq_true, if_false]
  rw [(stableSort_perm gpuLt _).length_eq, List.length_append, List.length_map,
    mergeGpuList_len]
  omega

/-- Witness for C3: one nvidia-smi record and one sysfs record. -/
theorem fuseGpus_output_spec_witness :
    (([({ name := "GPU A" } : GpuMetrics)]).length ≤
      (fuseGpus [({ name := "GPU A" } : GpuMetrics)]
        [({ name := "card0 (NVIDIA)" } : GpuMetrics)] none).length) ∧
    (fuseConsumed [({ name := "GPU A" } : GpuMetrics)]
      [({ name := "card0 (NVIDIA)" } : GpuMetrics)]).Nodup ∧
    ∀ i ∈ fuseConsumed [({ name := "GPU A" } : GpuMetrics)]
      [({ name := "card0 (NVIDIA)" } : GpuMetrics)],
      i < ([({ name := "card0 (NVIDIA)" } : GpuMetrics)]).length :=
  fuseGpus_output_spec [({ name := "GPU A" } : GpuMetrics)]
    [({ name := "card0 (NVIDIA)" } : GpuMetrics)] none (by simp) (by simp)

/-- **C5.** When the nvidia-smi probe produced at least one record, every
sysfs record is accounted for: its index was either consumed as a
supplement for some nvidia-smi record, or the record itself is appended to
the fused output unchanged. -/
theorem fuseGpus_accounting :
    ∀ (nvidia sysfs : List GpuMetrics) (fb : Option ℚ) (i : ℕ),
      nvidia ≠ [] → i < sysfs.length →
      i ∈ fuseConsumed nvidia sysfs ∨
        sysfs.getD i default ∈ fuseGpus nvidia sysfs fb := by
  intro nvidia sysfs fb i hnv hi
  have hempty : nvidia.isEmpty = false := by
    cases nvidia with
    | nil => exact absurd rfl hnv
    | cons a as => rfl
  by_cases hiu : (mergeGpuList sysfs nvidia (fun _ => false)
      (nvidiaSysfsIdxs sysfs) (List.range sysfs.length)).2.1 i = true
  · left
    have := (mergeGpuList_used_iff sysfs nvidia (fun _ => false)
      (nvidiaSysfsIdxs sysfs) (List.range sysfs.length) i).mp hiu
    simpa [fuseConsumed] using this
  · right
    unfold fuseGpus
    rw [hempty]
    simp only [Bool.false_eq_true, if_false]
    rw [(stableSort_perm gpuLt _).mem_iff]
    refine List.mem_append.mpr (Or.inr ?_)
    refine List.mem_map.mpr ⟨i, ?_, rfl⟩
    refine List.mem_filter.mpr ⟨List.mem_range.mpr hi, ?_⟩
    simp [hiu]

/-- Witness for C5: the single sysfs record of the C3 witness input is
consumed or appended. -/
theorem fuseGpus_accounting_witness :
    0 ∈ fuseConsumed [({ name := "GPU A" } : GpuMetrics)]
        [({ name := "card0" } : GpuMetrics)] ∨
      ([({ name := "card0" } : GpuMetrics)]).getD 0 default ∈
        fuseGpus [({ name := "GPU A" } : GpuMetrics)]
          [({ name := "card0" } : GpuMetrics)] none :=
  fuseGpus_accounting [({ name := "GPU A" } : GpuMetrics)]
    [({ name := "card0" } : GpuMetrics)] none 0 (by simp) (by simp)

/-! ## Claim C7: the sysfs-only fusion branch -/

/-- Modelled from the spec: "each entry kept only if it has at least one
non-name telemetry field" — the telemetry-presence predicate the claim
asserts of every record in the sysfs-only result (temperature, clock,
utilization, power, or a memory field). -/
def specNonNameTelemetry (g : GpuMetrics) : Bool :=
  g.temperature_c.isSome || g.core_clock_mhz.isSome || g.utilization_percent.isSome ||
  g.power_w.isSome || g.memory_used_mib.isSome || g.memory_total_mib.isSome

/-- A DRM card directory exposing no sensors at all. -/
def bareCardEnv : CardEnv := { cardName := "card1", classCode := some "0x030000" }

/-- The record the sysfs probe builds for `bareCardEnv`: name and source
only, no telemetry. -/
def bareCardGpu : GpuMetrics := { name := "card1 (Unknown)", source := "sysfs" }

/-- Counterexample for C7: with no nvidia-smi records, a card with no
telemetry at all is still kept in the fused result — the current sysfs
probe pushes every accepted card unconditionally, so "every record has at
least one non-name telemetry field" is false. -/
theorem collectGpus_keeps_bare_card :
    collectGpus [] [bareCardEnv] none = [bareCardGpu] ∧
    specNonNameTelemetry bareCardGpu = false ∧
    ¬ (∀ g ∈ collectGpus [] [bareCardEnv] none, specNonNameTelemetry g = true) := by
  refine ⟨by decide, by decide, ?_⟩
  intro hall
  have h1 : collectGpus [] [bareCardEnv] none = [bareCardGpu] := by decide
  have h2 := hall bareCardGpu (by rw [h1]; simp)
  simp [specNonNameTelemetry, bareCardGpu] at h2

/-- **C7 (amended).** When the nvidia-smi probe returns no GPUs, the fusion
result is exactly the sysfs probe's list — which is the stable-sorted
per-card records of every accepted card, kept regardless of whether any
telemetry field is populated. -/
theorem collectGpus_empty_nvidia :
    ∀ (cards : List CardEnv) (fb : Option ℚ),
      collectGpus [] cards fb = collectGpusFromSysfs cards fb ∧
      collectGpusFromSysfs cards fb =
        stableSort gpuLt ((cards.filter keepCard).map (buildSysfsGpu fb)) := by
  intro cards fb
  exact ⟨rfl, rfl⟩

end Hmon
